import Mathlib

/-!
Verification development for the act-js micro-library
(`src/lib/diff.js` and `src/lib/act.js`).

The DOM fragments handled by the library are embedded shallowly:
desired trees (the output of a render pass) and live trees (the
mutable on-screen tree) are inductive types, host-object maps
(attributes, state objects, the handler registry, scope registry)
are association lists with JavaScript-object semantics (ordered,
overwrite keeps the original position), and the in-place mutations
of `diff.js` / `act.js` are written as state-passing functions that
return the mutated value.
-/

namespace ActJs

/-! ## Association lists with JavaScript-object semantics

`getA`/`setA`/`eraseA` model `obj[k]`, `obj[k] = v` and `delete obj[k]`
on plain JS objects, as well as `getAttribute`/`setAttribute`/
`removeAttribute` on DOM attribute maps: lookup returns the first
binding, assignment overwrites in place keeping the key's position
(appending at the end when absent), deletion drops the binding. -/

/-- Lookup of the first binding of key `k` (JS property read /
`getAttribute`; `none` models `undefined` / `null`). -/
def getA {α : Type} : List (String × α) → String → Option α
  | [], _ => none
  | p :: ps, k => if p.1 = k then some p.2 else getA ps k

/-- Assignment `obj[k] = v` / `setAttribute(k, v)`: overwrite in place,
append at the end when the key is absent. -/
def setA {α : Type} : List (String × α) → String → α → List (String × α)
  | [], k, v => [(k, v)]
  | p :: ps, k, v => if p.1 = k then (k, v) :: ps else p :: setA ps k v

/-- Deletion `delete obj[k]` / `removeAttribute(k)` (keys are unique in
every map the library builds, so dropping every binding of `k` coincides
with deleting the single one). -/
def eraseA {α : Type} : List (String × α) → String → List (String × α)
  | [], _ => []
  | p :: ps, k => if p.1 = k then eraseA ps k else p :: eraseA ps k

theorem getA_setA {α : Type} (l : List (String × α)) (k : String) (v : α) (k' : String) :
    getA (setA l k v) k' = if k' = k then some v else getA l k' := by
  induction l with
  | nil =>
    by_cases h : k' = k
    · subst h; simp [setA, getA]
    · have h2 : ¬(k = k') := fun hh => h hh.symm
      simp [setA, getA, h, h2]
  | cons p ps ih =>
    by_cases hp : p.1 = k
    · by_cases h : k' = k
      · subst h; simp [setA, getA, hp]
      · have h2 : ¬(k = k') := fun hh => h hh.symm
        have hp' : ¬(p.1 = k') := by rw [hp]; exact h2
        simp [setA, getA, hp, h, h2, hp']
    · by_cases hq : p.1 = k'
      · have h : ¬(k' = k) := fun hh => hp (hq.trans hh)
        simp [setA, getA, hp, hq, h]
      · simp [setA, getA, hp, hq, ih]

theorem getA_eq_none_of_not_mem {α : Type} {l : List (String × α)} {k : String}
    (h : k ∉ l.map Prod.fst) : getA l k = none := by
  induction l with
  | nil => rfl
  | cons p ps ih =>
    simp only [List.map_cons, List.mem_cons] at h
    push_neg at h
    have hp : ¬(p.1 = k) := fun hh => h.1 hh.symm
    simp [getA, hp, ih h.2]

theorem getA_eq_some_of_mem {α : Type} {l : List (String × α)} {k : String} {v : α}
    (hnd : (l.map Prod.fst).Nodup) (h : (k, v) ∈ l) : getA l k = some v := by
  induction l with
  | nil => cases h
  | cons p ps ih =>
    simp only [List.map_cons, List.nodup_cons] at hnd
    rcases List.mem_cons.mp h with h1 | h1
    · subst h1; simp [getA]
    · have hk : p.1 ≠ k := by
        intro he
        exact hnd.1 (he ▸ (List.mem_map.mpr ⟨(k, v), h1, rfl⟩))
      simp only [getA, if_neg hk]
      exact ih hnd.2 h1

theorem getA_filter_key {α : Type} (l : List (String × α)) (q : String → Bool) (k : String) :
    getA (l.filter (fun p => q p.1)) k = if q k then getA l k else none := by
  induction l with
  | nil => simp [getA]
  | cons p ps ih =>
    by_cases hq : q p.1
    · rw [List.filter_cons_of_pos (by simpa using hq)]
      by_cases hk : p.1 = k
      · subst hk; simp [getA, hq]
      · simp [getA, hk, ih]
    · rw [List.filter_cons_of_neg (by simpa using hq)]
      by_cases hk : p.1 = k
      · subst hk
        simp [getA, ih, hq]
      · simp [getA, hk, ih]

theorem getA_eraseA {α : Type} (l : List (String × α)) (k k' : String) :
    getA (eraseA l k) k' = if k' = k then none else getA l k' := by
  induction l with
  | nil => simp [eraseA, getA]
  | cons p ps ih =>
    by_cases hp : p.1 = k
    · by_cases h : k' = k
      · subst h; simp [eraseA, hp, ih]
      · have h2 : ¬(k = k') := fun hh => h hh.symm
        have hp' : ¬(p.1 = k') := by rw [hp]; exact h2
        simp [eraseA, hp, ih, h, h2, getA, hp']
    · by_cases hq : p.1 = k'
      · have h : ¬(k' = k) := fun hh => hp (hq.trans hh)
        simp [eraseA, hp, getA, hq, h]
      · simp [eraseA, hp, getA, hq, ih]

/-! ## DOM trees

Claim C1 restricts the trees to text nodes and element nodes, which is
also all the template engine of `act.js` produces, so the embedding has
exactly these two node kinds (the `nodeType` comparisons of `diff.js`
become constructor comparisons). -/

/-- A desired node: the detached tree produced by one render pass
(`template.content` in `act.js`). An element holds its tag name
(`nodeName`), its ordered attribute map and its child list. -/
inductive DNode where
  | text (content : String)
  | elem (tag : String) (attrs : List (String × String)) (children : List DNode)

/-- A live node: the persistent on-screen tree mutated in place by
`diff.js`. Live elements additionally carry the current-value property
(`el.value`): `some v` models an element that supports the property
(`'value' in oldEl`) with current value `v`, `none` one that does not. -/
inductive LNode where
  | text (content : String)
  | elem (tag : String) (attrs : List (String × String)) (value : Option String)
      (children : List LNode)

/-- Current-value property of a live node (`none` for text nodes and
elements without the property). -/
def valueProp : LNode → Option String
  | .text _ => none
  | .elem _ _ v _ => v

/-- Value property a freshly created element starts with: input elements
support the property and initialise it from the `value` attribute (the
host's behaviour for a clean, never-typed-in input); other tags are
modelled without the property. -/
def defaultValueProp (tag : String) (attrs : List (String × String)) : Option String :=
  if tag = "INPUT" then some ((getA attrs "value").getD "") else none

mutual
/-- Deep copy `node.cloneNode(true)` of a desired node, yielding the
live node that insertion into the document produces. -/
def cloneNode : DNode → LNode
  | .text s => .text s
  | .elem tag attrs cs => .elem tag attrs (defaultValueProp tag attrs) (cloneNodeList cs)
def cloneNodeList : List DNode → List LNode
  | [] => []
  | d :: ds => cloneNode d :: cloneNodeList ds
end

mutual
/-- Well-formedness of a desired tree: attribute names are unique on
every element, which the host's HTML parser guarantees for every tree
the template engine hands to the reconciler (a DOM element cannot carry
two attributes of the same name). -/
def dwf : DNode → Bool
  | .text _ => true
  | .elem _ attrs cs => decide ((attrs.map Prod.fst).Nodup) && dwfList cs
def dwfList : List DNode → Bool
  | [] => true
  | d :: ds => dwf d && dwfList ds
end

/-! ## The reconciler (`src/lib/diff.js`) -/

/-- One iteration of the add/update loop of `syncAttrs`
(diff.js lines 27-36) on the state (current attributes of `oldEl`,
current value property of `oldEl`): if `oldEl.getAttribute(name)`
already equals the new value nothing happens; otherwise the attribute
is set, and for the `value` attribute of a node that has a value
property differing from the new value, the property is assigned too. -/
def syncStep (st : List (String × String) × Option String) (p : String × String) :
    List (String × String) × Option String :=
  if getA st.1 p.1 = some p.2 then st
  else
    (setA st.1 p.1 p.2,
     if p.1 = "value" ∧ st.2.isSome ∧ st.2 ≠ some p.2 then some p.2 else st.2)

/-- `syncAttrs(oldEl, newEl)` (diff.js lines 21-37): first remove every
attribute of `oldEl` absent from `newEl` (lines 23-25), then walk
`newEl.attributes` adding/updating the ones that changed (lines 27-36).
Returns `oldEl`'s final attribute map and value property. -/
def syncAttrs (oldAttrs : List (String × String)) (vp : Option String)
    (newAttrs : List (String × String)) : List (String × String) × Option String :=
  newAttrs.foldl syncStep
    (oldAttrs.filter (fun p => (getA newAttrs p.1).isSome), vp)

mutual
/-- `patch(oldParent, oldNode, newNode)` and `reconcileChildren(oldEl,
newEl)` (diff.js lines 40-84), written functionally: `patch` returns the
node that ends up at the old node's position, `reconcileChildren`
returns the parent's final child list. Differing node kinds or tags are
replaced by a deep copy of the desired node (`replaceChild` with
`cloneNode(true)`); equal text updates content; equal tags sync
attributes and recurse. Index-aligned children: positions beyond the
live length append clones, positions beyond the desired length are
removed. -/
def patch : LNode → DNode → LNode
  | .text _, .text t => .text t
  | .text _, .elem tag attrs cs => cloneNode (.elem tag attrs cs)
  | .elem _ _ _ _, .text t => .text t
  | .elem tag attrs vp cs, .elem tag' attrs' cs' =>
    if tag = tag' then
      .elem tag (syncAttrs attrs vp attrs').1 (syncAttrs attrs vp attrs').2
        (reconcileChildren cs cs')
    else cloneNode (.elem tag' attrs' cs')
def reconcileChildren : List LNode → List DNode → List LNode
  | [], ds => cloneNodeList ds
  | _ :: _, [] => []
  | o :: os, d :: ds => patch o d :: reconcileChildren os ds
end

/-! ## Structural and attribute-wise equality of a live tree with a
desired tree -/

/-- Attribute-wise equality: every attribute lookup agrees (order of the
attribute map is not observable). -/
def AttrsEquiv (a b : List (String × String)) : Prop := ∀ n, getA a n = getA b n

mutual
/-- A live tree matches a desired tree when both are the same kind of
node with equal text content resp. equal tag, attribute-wise equal
attributes and pointwise matching children. -/
def Matches : LNode → DNode → Prop
  | .text s, .text t => s = t
  | .elem tag attrs _ cs, .elem tag' attrs' cs' =>
    tag = tag' ∧ AttrsEquiv attrs attrs' ∧ MatchesList cs cs'
  | .text _, .elem _ _ _ => False
  | .elem _ _ _ _, .text _ => False
def MatchesList : List LNode → List DNode → Prop
  | [], [] => True
  | _ :: _, [] => False
  | [], _ :: _ => False
  | l :: ls, d :: ds => Matches l d ∧ MatchesList ls ds
end

mutual
theorem cloneNode_matches (d : DNode) : Matches (cloneNode d) d := by
  match d with
  | .text s => exact rfl
  | .elem tag attrs cs => exact ⟨rfl, fun n => rfl, cloneNodeList_matches cs⟩
theorem cloneNodeList_matches (ds : List DNode) : MatchesList (cloneNodeList ds) ds := by
  match ds with
  | [] => exact trivial
  | d :: ds' => exact ⟨cloneNode_matches d, cloneNodeList_matches ds'⟩
end

theorem getA_syncStep (st : List (String × String) × Option String)
    (p : String × String) (n : String) :
    getA (syncStep st p).1 n = if n = p.1 then some p.2 else getA st.1 n := by
  unfold syncStep
  by_cases hs : getA st.1 p.1 = some p.2
  · rw [if_pos hs]
    by_cases h : n = p.1
    · subst h; simp [hs]
    · simp [h]
  · rw [if_neg hs]
    exact getA_setA st.1 p.1 p.2 n

theorem getA_foldl_syncStep (l : List (String × String))
    (st : List (String × String) × Option String)
    (hnd : (l.map Prod.fst).Nodup) (n : String) :
    getA (l.foldl syncStep st).1 n = (getA l n).or (getA st.1 n) := by
  induction l generalizing st with
  | nil => simp [getA, Option.or]
  | cons p ps ih =>
    simp only [List.map_cons, List.nodup_cons] at hnd
    rw [List.foldl_cons, ih _ hnd.2]
    by_cases h : p.1 = n
    · subst h
      have hps : getA ps p.1 = none :=
        getA_eq_none_of_not_mem hnd.1
      rw [hps]
      have : getA (syncStep st p).1 p.1 = some p.2 := by
        rw [getA_syncStep]; simp
      rw [this]
      simp [getA, Option.or]
    · rw [getA_syncStep]
      have hn : ¬(n = p.1) := fun hh => h hh.symm
      simp [getA, hn, h]

theorem getA_syncAttrs (oldAttrs : List (String × String)) (vp : Option String)
    (newAttrs : List (String × String))
    (hnd : (newAttrs.map Prod.fst).Nodup) (n : String) :
    getA (syncAttrs oldAttrs vp newAttrs).1 n = getA newAttrs n := by
  unfold syncAttrs
  rw [getA_foldl_syncStep _ _ hnd]
  cases h : getA newAttrs n with
  | some v => simp [Option.or]
  | none =>
    show Option.or none
        (getA (oldAttrs.filter (fun p => (getA newAttrs p.1).isSome)) n) = none
    have hf := getA_filter_key oldAttrs (fun k => (getA newAttrs k).isSome) n
    simp only [] at hf
    rw [hf]
    simp [h, Option.or]

mutual
theorem patch_matches (l : LNode) (d : DNode) (h : dwf d = true) :
    Matches (patch l d) d := by
  match l, d with
  | .text _, .text t => exact rfl
  | .text _, .elem tag attrs cs => exact cloneNode_matches (.elem tag attrs cs)
  | .elem _ _ _ _, .text t => exact rfl
  | .elem tag attrs vp cs, .elem tag' attrs' cs' =>
    rw [dwf, Bool.and_eq_true, decide_eq_true_eq] at h
    by_cases ht : tag = tag'
    · have hrec := reconcileChildren_matchesList cs cs' h.2
      rw [patch, if_pos ht]
      exact ⟨ht, fun n => getA_syncAttrs attrs vp attrs' h.1 n, hrec⟩
    · rw [patch, if_neg ht]
      exact cloneNode_matches (.elem tag' attrs' cs')
theorem reconcileChildren_matchesList (ls : List LNode) (ds : List DNode)
    (h : dwfList ds = true) : MatchesList (reconcileChildren ls ds) ds := by
  match ls, ds with
  | [], ds => exact cloneNodeList_matches ds
  | _ :: _, [] => exact trivial
  | o :: os, d :: ds' =>
    rw [dwfList, Bool.and_eq_true] at h
    exact ⟨patch_matches o d h.1, reconcileChildren_matchesList os ds' h.2⟩
end

/-- C1. Reconciliation convergence: for any live child list `A` and any
desired child list `B` built only of text and element nodes (which is
all the embedding admits), after `reconcileChildren(A, B)` the live
children are structurally and attribute-wise equal to `B`, whatever the
combination of kinds, differing tags, or relative lengths of `A` and
`B`. The well-formedness hypothesis states only that desired elements
do not carry two attributes of the same name, which the host guarantees
for every tree a render pass produces. -/
theorem reconcileChildren_converges (ls : List LNode) (ds : List DNode)
    (h : dwfList ds = true) : MatchesList (reconcileChildren ls ds) ds :=
  reconcileChildren_matchesList ls ds h

/-- Live tree for the C1 witness: a text node, a same-tag element with
stale attributes and children, and a trailing element that the desired
tree does not have. -/
def c1Live : List LNode :=
  [ .text "old",
    .elem "DIV" [("class", "stale"), ("id", "x")] none
      [.text "inner", .elem "B" [] none []],
    .elem "SPAN" [] none [] ]

/-- Desired tree for the C1 witness: changed text, the same-tag element
with changed attributes, a differing-tag replacement, and an appended
extra node (so it exercises patching, replacement, removal and
appending at once with a second run where B is longer than A). -/
def c1Desired : List DNode :=
  [ .text "new",
    .elem "DIV" [("id", "x"), ("data-n", "1")]
      [.elem "I" [("k", "v")] [], .text "inner2"] ]

/-- Witness for C1 at the concrete trees above, discharging the
well-formedness hypothesis by evaluation. -/
theorem reconcileChildren_converges_witness :
    dwfList c1Desired = true ∧
      MatchesList (reconcileChildren c1Live c1Desired) c1Desired :=
  ⟨by decide, reconcileChildren_converges c1Live c1Desired (by decide)⟩

theorem foldl_syncStep_preserves_vp (l : List (String × String))
    (st : List (String × String) × Option String)
    (hcond : ∀ p ∈ l, p.1 = "value" → getA st.1 "value" = some p.2) :
    (l.foldl syncStep st).2 = st.2 := by
  induction l generalizing st with
  | nil => rfl
  | cons p ps ih =>
    rw [List.foldl_cons]
    by_cases hv : p.1 = "value"
    · have hc := hcond p (List.mem_cons_self p ps) hv
      have hskip : syncStep st p = st := by
        unfold syncStep
        rw [hv, hc]
        simp
      rw [hskip]
      exact ih st (fun q hq hqv => hcond q (List.mem_cons_of_mem p hq) hqv)
    · have h1 : getA (syncStep st p).1 "value" = getA st.1 "value" := by
        rw [getA_syncStep, if_neg (fun hh : "value" = p.1 => hv hh.symm)]
      have h2 : (syncStep st p).2 = st.2 := by
        unfold syncStep
        split
        · rfl
        · simp [hv]
      rw [ih (syncStep st p)
        (fun q hq hqv => by rw [h1]; exact hcond q (List.mem_cons_of_mem p hq) hqv), h2]

theorem syncAttrs_preserves_vp (oldAttrs : List (String × String)) (vp : Option String)
    (newAttrs : List (String × String))
    (hnd : (newAttrs.map Prod.fst).Nodup)
    (heq : getA oldAttrs "value" = getA newAttrs "value") :
    (syncAttrs oldAttrs vp newAttrs).2 = vp := by
  unfold syncAttrs
  apply foldl_syncStep_preserves_vp
  intro p hp hpv
  obtain ⟨a, b⟩ := p
  simp only at hpv
  subst hpv
  have h1 : getA newAttrs "value" = some b := getA_eq_some_of_mem hnd hp
  show getA (oldAttrs.filter (fun p => (getA newAttrs p.1).isSome)) "value" = some b
  have hf := getA_filter_key oldAttrs (fun k => (getA newAttrs k).isSome) "value"
  simp only [] at hf
  rw [hf, if_pos (by rw [h1]; rfl), heq, h1]

/-- C8. Cursor-preserving value update: patching a live element against
a desired element of the same tag whose declared `value` attribute
agrees with the live one leaves the live current-value property
untouched, even when that property differs from the declared attribute
(diff.js lines 28-34 skip the whole update, property assignment
included, when `oldEl.getAttribute(name)` already equals the desired
value). -/
theorem patch_preserves_value_prop (tag : String) (attrs : List (String × String))
    (vp : Option String) (cs : List LNode) (tag' : String)
    (attrs' : List (String × String)) (cs' : List DNode)
    (ht : tag = tag')
    (hnd : (attrs'.map Prod.fst).Nodup)
    (heq : getA attrs "value" = getA attrs' "value") :
    valueProp (patch (.elem tag attrs vp cs) (.elem tag' attrs' cs')) = vp := by
  rw [patch, if_pos ht]
  exact syncAttrs_preserves_vp attrs vp attrs' hnd heq

/-- Witness for C8: a live input whose attribute value is `"abc"` but
whose in-property value was typed to `"typed"`; the desired input
declares value `"abc"` again (with another attribute changing), and the
property survives the patch. -/
theorem patch_preserves_value_prop_witness :
    ("INPUT" : String) = "INPUT" ∧
    ((([("value", "abc"), ("class", "x")] : List (String × String)).map
        Prod.fst).Nodup) ∧
    getA [("value", "abc")] "value" =
      getA [("value", "abc"), ("class", "x")] "value" ∧
    valueProp
      (patch (.elem "INPUT" [("value", "abc")] (some "typed") [])
        (.elem "INPUT" [("value", "abc"), ("class", "x")] [])) = some "typed" :=
  ⟨rfl, by decide, by decide,
    patch_preserves_value_prop "INPUT" [("value", "abc")] (some "typed") []
      "INPUT" [("value", "abc"), ("class", "x")] [] rfl (by decide) (by decide)⟩

/-! ## The declarative `data-on` wire format

`bindEvents` (act.js lines 454-470) reads each element's `data-on`
attribute and hands it to the host's `JSON.parse`. The host parser is
modelled by `jsonParse`, restricted to the wire contract of the
attribute (an object mapping event-name strings to handler-name
strings, the only shape the templates emit): a well-formed encoding
parses to its key/value map with JS-object semantics (later duplicate
keys overwrite, keeping the first position), anything else is malformed
and models a thrown `SyntaxError` as `none`. Brace and quote characters
appear through their code points only. -/

def quoteC : Char := Char.ofNat 34

def lbraceC : Char := Char.ofNat 123

def rbraceC : Char := Char.ofNat 125

/-- Parse a leading `"..."` string literal (no escapes, which the
templates never produce), returning it and the rest of the input. -/
def parseQuoted : List Char → Option (String × List Char)
  | [] => none
  | c :: rest =>
    if c = quoteC then
      match rest.dropWhile (fun d => d ≠ quoteC) with
      | d :: tail =>
        if d = quoteC then
          some (String.mk (rest.takeWhile (fun d => d ≠ quoteC)), tail)
        else none
      | [] => none
    else none

/-- Parse `"k":"v"` pairs separated by commas up to the closing brace,
accumulating with JS-object assignment. The fuel only bounds the number
of pairs (each pair consumes input, and callers pass the input length),
it is not observable in the result. -/
def parsePairs : Nat → List Char → List (String × String) →
    Option (List (String × String))
  | 0, _, _ => none
  | fuel + 1, cs, acc =>
    match parseQuoted cs with
    | none => none
    | some (k, rest) =>
      match rest with
      | c :: rest2 =>
        if c = ':' then
          match parseQuoted rest2 with
          | none => none
          | some (v, rest3) =>
            match rest3 with
            | d :: rest4 =>
              if d = ',' then parsePairs fuel rest4 (setA acc k v)
              else if d = rbraceC then
                if rest4 = [] then some (setA acc k v) else none
              else none
            | [] => none
        else none
      | [] => none

/-- Model of the host `JSON.parse` on the `data-on` wire contract. -/
def jsonParse (s : String) : Option (List (String × String)) :=
  match s.data with
  | c :: rest =>
    if c = lbraceC then
      match rest with
      | d :: tail =>
        if d = rbraceC ∧ tail = [] then some []
        else parsePairs (rest.length + 1) rest []
      | [] => none
    else none
  | [] => none

/-! ## The event binder (`act.js` lines 454-470) -/

/-- One `activeListeners` entry `{el, event, handler}`: the element is
identified by its child-index path below the mount container, the
callback by an opaque token (no claim invokes a handler, so callbacks
are tokens in the registry). -/
structure ListenerRecord where
  el : List Nat
  event : String
  callback : Nat
deriving DecidableEq, Repr

/-- Warning emitted for a binding whose handler is not registered. -/
def noHandlerWarn (hname : String) : String :=
  "[act.js] No handler registered for \"" ++ hname ++ "\""

/-- Walk the entries of a parsed `data-on` map in order: a binding whose
handler exists in the registry yields a listener record, a missing one
yields the non-fatal warning. -/
def resolveEntries (handlers : List (String × Nat)) (path : List Nat) :
    List (String × String) → List ListenerRecord × List String
  | [] => ([], [])
  | (event, hname) :: rest =>
    let r := resolveEntries handlers path rest
    match getA handlers hname with
    | some cb => (⟨path, event, cb⟩ :: r.1, r.2)
    | none => (r.1, noHandlerWarn hname :: r.2)

/-- Result of processing a child list in `bindEvents`: the final nodes,
the listener records pushed, the warnings printed, and whether the pass
completed (`ok = false` models an uncaught `JSON.parse` exception
propagating out of the `forEach`). -/
structure BindOut where
  nodes : List LNode
  records : List ListenerRecord
  warnings : List String
  ok : Bool

/-- Result of processing a single node in `bindEvents`. -/
structure BindOutN where
  node : LNode
  records : List ListenerRecord
  warnings : List String
  ok : Bool

mutual
/-- `bindEvents(root)` on one node: an element carrying `data-on` parses
it (a malformed encoding throws, leaving the element untouched and
aborting the whole pass), attaches each resolvable binding, removes the
`data-on` attribute, then the walk continues into the children
(`querySelectorAll` document order is exactly this pre-order walk). -/
def bindNode (handlers : List (String × Nat)) (path : List Nat) : LNode → BindOutN
  | .text s => ⟨.text s, [], [], true⟩
  | .elem tag attrs vp cs =>
    match getA attrs "data-on" with
    | none =>
      let r := bindList handlers path 0 cs
      ⟨.elem tag attrs vp r.nodes, r.records, r.warnings, r.ok⟩
    | some raw =>
      match jsonParse raw with
      | none => ⟨.elem tag attrs vp cs, [], [], false⟩
      | some m =>
        let own := resolveEntries handlers path m
        let r := bindList handlers path 0 cs
        ⟨.elem tag (eraseA attrs "data-on") vp r.nodes,
          own.1 ++ r.records, own.2 ++ r.warnings, r.ok⟩
/-- `bindEvents` over a child list: stops at the first node whose
processing throws, leaving the later siblings untouched. -/
def bindList (handlers : List (String × Nat)) (path : List Nat) (i : Nat) :
    List LNode → BindOut
  | [] => ⟨[], [], [], true⟩
  | n :: ns =>
    let rn := bindNode handlers (path ++ [i]) n
    if rn.ok then
      let rs := bindList handlers path (i + 1) ns
      ⟨rn.node :: rs.nodes, rn.records ++ rs.records,
        rn.warnings ++ rs.warnings, rs.ok⟩
    else ⟨rn.node :: ns, rn.records, rn.warnings, false⟩
end

mutual
/-- Every `data-on` attribute in the tree parses under the wire
contract (the precondition for `bindEvents` completing normally). -/
def wfNode : LNode → Bool
  | .text _ => true
  | .elem _ attrs _ cs =>
    (match getA attrs "data-on" with
     | none => true
     | some raw => (jsonParse raw).isSome) && wfList cs
def wfList : List LNode → Bool
  | [] => true
  | n :: ns => wfNode n && wfList ns
end

mutual
/-- Stated from the spec's words (§4.5): after processing, the
`data-on` render metadata is removed from every element and nothing
else about the tree changes. -/
def stripNode : LNode → LNode
  | .text s => .text s
  | .elem tag attrs vp cs => .elem tag (eraseA attrs "data-on") vp (stripList cs)
def stripList : List LNode → List LNode
  | [] => []
  | n :: ns => stripNode n :: stripList ns
end

mutual
/-- Stated from the spec's words (§3, §4.5): the bindings declared by
the tree's `data-on` attributes, in document order, each resolved
against the handler registry (a declared binding whose handler is
missing resolves to nothing). -/
def declaredNode (handlers : List (String × Nat)) (path : List Nat) :
    LNode → List ListenerRecord
  | .text _ => []
  | .elem _ attrs _ cs =>
    (match getA attrs "data-on" with
     | none => []
     | some raw =>
       match jsonParse raw with
       | none => []
       | some m => (resolveEntries handlers path m).1) ++
      declaredList handlers path 0 cs
def declaredList (handlers : List (String × Nat)) (path : List Nat) (i : Nat) :
    List LNode → List ListenerRecord
  | [] => []
  | n :: ns =>
    declaredNode handlers (path ++ [i]) n ++ declaredList handlers path (i + 1) ns
end

theorem eraseA_of_getA_none {α : Type} {l : List (String × α)} {k : String}
    (h : getA l k = none) : eraseA l k = l := by
  induction l with
  | nil => rfl
  | cons p ps ih =>
    by_cases hp : p.1 = k
    · rw [getA, if_pos hp] at h
      cases h
    · rw [getA, if_neg hp] at h
      rw [eraseA, if_neg hp, ih h]

mutual
theorem bindNode_wf_spec (handlers : List (String × Nat)) (path : List Nat)
    (n : LNode) (h : wfNode n = true) :
    (bindNode handlers path n).node = stripNode n ∧
    (bindNode handlers path n).records = declaredNode handlers path n ∧
    (bindNode handlers path n).ok = true := by
  match n with
  | .text s => exact ⟨rfl, rfl, rfl⟩
  | .elem tag attrs vp cs =>
    rw [wfNode, Bool.and_eq_true] at h
    cases hdo : getA attrs "data-on" with
    | none =>
      have hcs := bindList_wf_spec handlers path 0 cs h.2
      simp only [bindNode, hdo, stripNode, declaredNode]
      exact ⟨by rw [hcs.1, eraseA_of_getA_none hdo],
        by rw [hcs.2.1]; simp, hcs.2.2⟩
    | some raw =>
      rw [hdo] at h
      have h1 : (jsonParse raw).isSome = true ∧ wfList cs = true := by
        simpa using h
      cases hp : jsonParse raw with
      | none => rw [hp] at h1; simp at h1
      | some m =>
        have hcs := bindList_wf_spec handlers path 0 cs h1.2
        simp only [bindNode, hdo, hp, stripNode, declaredNode]
        exact ⟨by rw [hcs.1], by rw [hcs.2.1], hcs.2.2⟩
theorem bindList_wf_spec (handlers : List (String × Nat)) (path : List Nat)
    (i : Nat) (ns : List LNode) (h : wfList ns = true) :
    (bindList handlers path i ns).nodes = stripList ns ∧
    (bindList handlers path i ns).records = declaredList handlers path i ns ∧
    (bindList handlers path i ns).ok = true := by
  match ns with
  | [] => exact ⟨rfl, rfl, rfl⟩
  | n :: ns' =>
    rw [wfList, Bool.and_eq_true] at h
    have hn := bindNode_wf_spec handlers (path ++ [i]) n h.1
    have hs := bindList_wf_spec handlers path (i + 1) ns' h.2
    simp only [bindList, hn.2.2, if_true, stripList, declaredList]
    exact ⟨by rw [hn.1, hs.1], by rw [hn.2.1, hs.2.1], hs.2.2⟩
end

mutual
theorem bindNode_ok_eq_wf (handlers : List (String × Nat)) (path : List Nat)
    (n : LNode) : (bindNode handlers path n).ok = wfNode n := by
  match n with
  | .text s => exact rfl
  | .elem tag attrs vp cs =>
    cases hdo : getA attrs "data-on" with
    | none =>
      simp only [bindNode, hdo, wfNode]
      rw [bindList_ok_eq_wf handlers path 0 cs]
      simp
    | some raw =>
      cases hp : jsonParse raw with
      | none => simp [bindNode, hdo, hp, wfNode]
      | some m =>
        simp only [bindNode, hdo, hp, wfNode]
        rw [bindList_ok_eq_wf handlers path 0 cs]
        simp
theorem bindList_ok_eq_wf (handlers : List (String × Nat)) (path : List Nat)
    (i : Nat) (ns : List LNode) : (bindList handlers path i ns).ok = wfList ns := by
  match ns with
  | [] => exact rfl
  | n :: ns' =>
    have hn := bindNode_ok_eq_wf handlers (path ++ [i]) n
    by_cases hok : (bindNode handlers (path ++ [i]) n).ok = true
    · simp only [bindList, hok, if_true, wfList]
      rw [bindList_ok_eq_wf handlers path (i + 1) ns', ← hn, hok]
      simp
    · have hfalse : (bindNode handlers (path ++ [i]) n).ok = false :=
        Bool.eq_false_iff.mpr hok
      simp only [bindList, hfalse, wfList, ← hn]
      simp
end

/-! ## The application container (`src/lib/act.js`) -/

/-- JavaScript values stored in global and scoped state (a
representative sample; no claim depends on the value structure). -/
inductive Value where
  | vStr (s : String)
  | vNum (n : Int)
  | vBool (b : Bool)
  | vUndef
deriving DecidableEq, Repr

/-- The complete observable state of one `createApp(container)`
instance: the closure variables of `createApp` (act.js lines 43-92,
472-473), the host-side timer tables the safe-timer wrappers talk to,
the mount container's children, the console output, and a render-count
probe (spec §8's observable for debounced scheduling; `rerender` is the
only operation that increments it). Style-sheet registration
(`criticalCSS`/`criticalStylesheet`, act.js lines 94-124 and 516-530)
is peripheral glue outside the spec's core scope (§1) and is not
modelled. Handler callbacks are opaque tokens. -/
structure AppState where
  globalState : List (String × Value)
  scopes : List (String × List (String × Value))
  renderFn : Option (List (String × Value) → List DNode)
  mounted : Bool
  activeListeners : List ListenerRecord
  intervals : List Nat
  timeouts : List Nat
  hostIntervals : List Nat
  hostTimeouts : List Nat
  nextTimerId : Nat
  rerenderScheduled : Bool
  pendingMicrotasks : Nat
  handlers : List (String × Nat)
  container : List LNode
  console : List String
  renderCount : Nat

/-- `createApp`: every registry empty, not mounted, nothing scheduled. -/
def initialApp : AppState :=
  ⟨[], [], none, false, [], [], [], [], [], 0, false, 0, [], [], [], 0⟩

/-- `scheduleRerender` (act.js lines 84-92): when no rerender is
pending, set the flag and queue one microtask; the queued callback
clears the flag and calls `rerender` (see `runMicrotask`). -/
def scheduleRerender (s : AppState) : AppState :=
  if s.rerenderScheduled then s
  else { s with rerenderScheduled := true,
                pendingMicrotasks := s.pendingMicrotasks + 1 }

/-- Global `setState` (act.js lines 139-142). -/
def setState (k : String) (v : Value) (s : AppState) : AppState :=
  let s' := { s with globalState := setA s.globalState k v }
  if s'.mounted then scheduleRerender s' else s'

/-- Global `getState` (act.js lines 152-154). -/
def getState (k : String) (s : AppState) : Option Value := getA s.globalState k

/-- Global `deleteState` (act.js lines 160-162). -/
def deleteState (k : String) (s : AppState) : AppState :=
  { s with globalState := eraseA s.globalState k }

/-- Scoped `setState` (act.js lines 207-210): writes the scope's
private state and schedules a rerender when mounted. The scheduling
happens through the closure regardless of registration, so a reference
to a scope no longer in the registry still schedules; its private write
is simply not visible through the registry, which the model reflects by
leaving the registry unchanged in that case. -/
def scopeSetState (name k : String) (v : Value) (s : AppState) : AppState :=
  let s' := { s with scopes :=
    (match getA s.scopes name with
     | none => s.scopes
     | some st => setA s.scopes name (setA st k v)) }
  if s'.mounted then scheduleRerender s' else s'

/-- Scoped `getState` (act.js lines 220-222). -/
def scopeGetState (name k : String) (s : AppState) : Option Value :=
  (getA s.scopes name).bind (fun st => getA st k)

/-- `scope.handler(handlerName)` (act.js lines 278-280), also the key
under which `scope.on` registers (line 256). -/
def scopeKey (scopeName handlerName : String) : String :=
  scopeName ++ ":" ++ handlerName

/-- `scope.on(handlerName, fn)` (act.js lines 255-257). -/
def scopeOn (scopeName handlerName : String) (cb : Nat) (s : AppState) : AppState :=
  { s with handlers := setA s.handlers (scopeKey scopeName handlerName) cb }

/-- `scope.off(handlerName)` (act.js lines 263-265). -/
def scopeOff (scopeName handlerName : String) (s : AppState) : AppState :=
  { s with handlers := eraseA s.handlers (scopeKey scopeName handlerName) }

/-- String prefix test modelling `key.startsWith(pre)`. -/
def strStarts (key pre : String) : Bool :=
  decide (key.data.take pre.data.length = pre.data)

/-- `scope.destroy()` (act.js lines 294-304): drop every handler whose
key starts with `name + ":"`, clear the private state (held only by the
registry entry), remove the scope from the registry. -/
def scopeDestroy (name : String) (s : AppState) : AppState :=
  { s with handlers := s.handlers.filter (fun p => !(strStarts p.1 (name ++ ":"))),
           scopes := eraseA s.scopes name }

/-- Warning of `createScope` on an existing name (act.js lines 186-188). -/
def scopeExistsWarn (name : String) : String :=
  "[act.js] Scope \"" ++ name ++ "\" already exists. Use app.getScope(\"" ++
    name ++ "\") to access it."

/-- Warning of `getScope` on a missing name (act.js lines 325-327;
the source text uses a contraction, rendered here without it). -/
def scopeNotFoundWarn (name : String) : String :=
  "[act.js] Scope \"" ++ name ++ "\" not found. Make sure it is created first."

/-- `createScope(name)` (act.js lines 184-309): an existing name warns
and returns the existing scope (reachable through the registry entry,
which the model leaves untouched); otherwise a fresh scope with empty
private state is registered. -/
def createScope (name : String) (s : AppState) : AppState :=
  match getA s.scopes name with
  | some _ => { s with console := s.console ++ [scopeExistsWarn name] }
  | none => { s with scopes := setA s.scopes name [] }

/-- `getScope(name)` (act.js lines 322-331): the registered scope, or
`null` plus a warning. -/
def getScope (name : String) (s : AppState) :
    Option (List (String × Value)) × AppState :=
  match getA s.scopes name with
  | none => (none, { s with console := s.console ++ [scopeNotFoundWarn name] })
  | some sc => (some sc, s)

/-- Global `on` (act.js lines 483-485; `on` is a reserved token in the
ambient library, hence the `app` prefix). -/
def appOn (name : String) (cb : Nat) (s : AppState) : AppState :=
  { s with handlers := setA s.handlers name cb }

/-- Global `off` (act.js lines 491-493). -/
def appOff (name : String) (s : AppState) : AppState :=
  { s with handlers := eraseA s.handlers name }

/-- `safeSetInterval` (act.js lines 350-354): the host allocates a fresh
id and registers the interval; the wrapper tracks the id. Ids are fresh,
so appending models `Set.add`. -/
def safeSetInterval (s : AppState) : Nat × AppState :=
  (s.nextTimerId,
   { s with hostIntervals := s.hostIntervals ++ [s.nextTimerId],
            intervals := s.intervals ++ [s.nextTimerId],
            nextTimerId := s.nextTimerId + 1 })

/-- `safeClearInterval` (act.js lines 360-363). -/
def safeClearInterval (id : Nat) (s : AppState) : AppState :=
  { s with hostIntervals := s.hostIntervals.filter (fun x => x ≠ id),
           intervals := s.intervals.filter (fun x => x ≠ id) }

/-- `safeSetTimeout` (act.js lines 373-380); the self-untracking wrapper
around the callback fires outside any claim, so only registration is
modelled. -/
def safeSetTimeout (s : AppState) : Nat × AppState :=
  (s.nextTimerId,
   { s with hostTimeouts := s.hostTimeouts ++ [s.nextTimerId],
            timeouts := s.timeouts ++ [s.nextTimerId],
            nextTimerId := s.nextTimerId + 1 })

/-- `safeClearTimeout` (act.js lines 386-389). -/
def safeClearTimeout (id : Nat) (s : AppState) : AppState :=
  { s with hostTimeouts := s.hostTimeouts.filter (fun x => x ≠ id),
           timeouts := s.timeouts.filter (fun x => x ≠ id) }

/-- `cleanupListeners` (act.js lines 399-404): detach every recorded
listener and clear the record list. -/
def cleanupListeners (s : AppState) : AppState := { s with activeListeners := [] }

/-- `rerender` (act.js lines 415-440): nothing happens before `mount`
stored a render function; otherwise clean up the old listeners, build
the fresh fragment from `renderFn(globalState)`, replace the
container's entire content with it (`innerHTML = ""` followed by
`appendChild`), and bind the declared events on the new content. The
focus save/restore of lines 418-421 and 431-439 touches only host focus
state, which no claim observes, and is not modelled. The render
function is pure (spec §6 render contract), so a render never schedules
further work. -/
def rerender (s : AppState) : AppState :=
  match s.renderFn with
  | none => s
  | some f =>
    let s1 := cleanupListeners s
    let b := bindList s1.handlers [] 0 (cloneNodeList (f s1.globalState))
    { s1 with container := b.nodes,
              activeListeners := b.records,
              console := s1.console ++ b.warnings,
              renderCount := s1.renderCount + 1 }

/-- `mount(fn)` (act.js lines 515-535): store the render function, mark
mounted, and render synchronously. -/
def mount (f : List (String × Value) → List DNode) (s : AppState) : AppState :=
  rerender { s with renderFn := some f, mounted := true }

/-- The microtask queued by `scheduleRerender`: clear the flag and call
`rerender`. -/
def runMicrotask (s : AppState) : AppState :=
  rerender { s with pendingMicrotasks := s.pendingMicrotasks - 1,
                    rerenderScheduled := false }

/-- Run `n` queued microtasks. -/
def drainN : Nat → AppState → AppState
  | 0, s => s
  | n + 1, s => drainN n (runMicrotask s)

/-- The next microtask-equivalent checkpoint after a synchronous block:
run every queued microtask. A queued rerender never queues another (the
render function is pure), so the pending count at entry bounds the
work. -/
def checkpoint (s : AppState) : AppState := drainN s.pendingMicrotasks s

/-- Console line of `destroy` (act.js line 581). -/
def destroyLog : String := "[act.js] App destroyed and cleaned up."

/-- The loop `for (const name of Object.keys(scopes)) scopes[name].destroy()`
(act.js lines 562-564): `Object.keys` snapshots the names first. -/
def destroyScopes (s : AppState) : AppState :=
  (s.scopes.map Prod.fst).foldl (fun acc name => scopeDestroy name acc) s

/-- `destroy()` (act.js lines 550-582) step by step: unset mounted and
the render function, clean up listeners, clear tracked intervals and
timeouts on the host and in the tracking sets, destroy every scope,
empty the container, reset global state, delete every handler key, log.
(The adopted-stylesheet filtering of lines 566-573 is out of the
modelled scope, see `AppState`.) -/
def destroy (s : AppState) : AppState :=
  let s1 := { s with mounted := false, renderFn := none }
  let s2 := cleanupListeners s1
  let s3 := { s2 with
    hostIntervals := s2.hostIntervals.filter (fun id => decide (id ∉ s2.intervals)),
    intervals := [] }
  let s4 := { s3 with
    hostTimeouts := s3.hostTimeouts.filter (fun id => decide (id ∉ s3.timeouts)),
    timeouts := [] }
  let s5 := destroyScopes s4
  let s6 := { s5 with
    container := [],
    globalState := [],
    handlers := (s5.handlers.map Prod.fst).foldl (fun h k => eraseA h k) s5.handlers }
  { s6 with console := s6.console ++ [destroyLog] }

/-- One synchronous state mutation of claim C3: a global or a scoped
`setState` with arbitrary key and value. -/
inductive Op where
  | globalSet (k : String) (v : Value)
  | scopedSet (scope k : String) (v : Value)

def applyOp (s : AppState) : Op → AppState
  | .globalSet k v => setState k v s
  | .scopedSet name k v => scopeSetState name k v s

/-- A synchronous block of `setState` calls, run back to back. -/
def applyOps (ops : List Op) (s : AppState) : AppState := ops.foldl applyOp s

/-! ## Render-cycle lemmas and claims C2, C6 -/

theorem rerender_eq (s : AppState) (f : List (String × Value) → List DNode)
    (hrf : s.renderFn = some f) :
    rerender s =
      { s with
        container := (bindList s.handlers [] 0 (cloneNodeList (f s.globalState))).nodes,
        activeListeners :=
          (bindList s.handlers [] 0 (cloneNodeList (f s.globalState))).records,
        console :=
          s.console ++ (bindList s.handlers [] 0 (cloneNodeList (f s.globalState))).warnings,
        renderCount := s.renderCount + 1 } := by
  obtain ⟨gs, sc, rf, m, al, iv, tv, hiv, htv, nti, rs, pm, h, c, con, rc⟩ := s
  dsimp only at hrf
  subst hrf
  rfl

/-- C2. Every render cycle — the initial paint from `mount` and every
scheduled one — replaces the mount container's entire content with the
fragment `renderFn(globalState)` produced for that cycle (as inserted:
the binder strips the `data-on` render metadata): the resulting content
is `stripList (cloneNodeList (f s.globalState))`, an expression
independent of the container's previous children, so the per-node patch
algorithm of `diff.js` plays no part at the container's top level
(act.js lines 425-428: `innerHTML = ""` followed by `appendChild`). -/
theorem rerender_replaces_container (s : AppState)
    (f : List (String × Value) → List DNode)
    (hrf : s.renderFn = some f)
    (hwf : wfList (cloneNodeList (f s.globalState)) = true) :
    (rerender s).container = stripList (cloneNodeList (f s.globalState)) := by
  rw [rerender_eq s f hrf]
  exact (bindList_wf_spec s.handlers [] 0 (cloneNodeList (f s.globalState)) hwf).1

/-- Fragment for the C2 witness. -/
def c2Frag : List DNode :=
  [DNode.elem "DIV" [("class", "app")] [DNode.text "hi"]]

/-- Mounted state for the C2 witness, with stale container content that
the render cycle must discard. -/
def c2App : AppState :=
  { initialApp with
    mounted := true,
    renderFn := some (fun _ => c2Frag),
    container := [LNode.text "stale"] }

/-- Witness for C2 at a concrete mounted state. -/
theorem rerender_replaces_container_witness :
    c2App.renderFn = some (fun _ => c2Frag) ∧
    wfList (cloneNodeList ((fun _ => c2Frag) c2App.globalState)) = true ∧
    (rerender c2App).container =
      stripList (cloneNodeList ((fun _ => c2Frag) c2App.globalState)) :=
  ⟨rfl, rfl, rerender_replaces_container c2App (fun _ => c2Frag) rfl rfl⟩

/-- C6. After every render cycle the recorded active listeners are
exactly the bindings declared by the fresh desired tree's `data-on`
attributes, resolved against the handler registry — independently of
whatever was recorded before the cycle, so across two successive
renders nothing attached by the first survives the second
(`cleanupListeners` runs unconditionally at act.js line 424 and
`bindEvents` rebuilds the records from the new content alone). -/
theorem rerender_listeners_exact (s : AppState)
    (f : List (String × Value) → List DNode)
    (hrf : s.renderFn = some f)
    (hwf : wfList (cloneNodeList (f s.globalState)) = true) :
    (rerender s).activeListeners =
      declaredList s.handlers [] 0 (cloneNodeList (f s.globalState)) := by
  rw [rerender_eq s f hrf]
  exact (bindList_wf_spec s.handlers [] 0 (cloneNodeList (f s.globalState)) hwf).2.1

/-- The `data-on` payload of the C6 witness, built with escaped code
points for the braces. -/
def c6DataOn : String := "\x7b\"click\":\"inc\"\x7d"

/-- Fragment for the C6 witness: one resolvable binding and one
missing-handler binding. -/
def c6Frag : List DNode :=
  [DNode.elem "BUTTON" [("data-on", c6DataOn)] [],
   DNode.elem "A" [("data-on", "\x7b\"click\":\"gone\"\x7d")] []]

/-- Mounted state for the C6 witness, with one registered handler and a
stale listener record from a previous render that must not survive. -/
def c6App : AppState :=
  { initialApp with
    mounted := true,
    renderFn := some (fun _ => c6Frag),
    handlers := [("inc", 7)],
    activeListeners := [⟨[9], "click", 99⟩] }

/-- Witness for C6: after the cycle, exactly the one resolvable declared
binding is recorded and the stale record is gone. -/
theorem rerender_listeners_exact_witness :
    c6App.renderFn = some (fun _ => c6Frag) ∧
    wfList (cloneNodeList ((fun _ => c6Frag) c6App.globalState)) = true ∧
    (rerender c6App).activeListeners =
      declaredList c6App.handlers [] 0 (cloneNodeList ((fun _ => c6Frag) c6App.globalState)) :=
  ⟨rfl, rfl, rerender_listeners_exact c6App (fun _ => c6Frag) rfl rfl⟩

/-! ## Claim C4: malformed `data-on` content -/

/-- C4 counterexample: a single element whose `data-on` content `oops`
is malformed. `bindEvents` does not warn and skip it — the `JSON.parse`
exception propagates (`ok = false`, refuting "no exception propagates
out of bindEvents") and no diagnostic is produced (`warnings = []`,
refuting "produces a diagnostic"). -/
theorem bindEvents_malformed_aborts :
    (bindList [] [] 0 [.elem "BUTTON" [("data-on", "oops")] none []]).ok = false ∧
    (bindList [] [] 0 [.elem "BUTTON" [("data-on", "oops")] none []]).warnings = [] :=
  ⟨rfl, rfl⟩

/-- C4 (amended). `bindEvents` completes without an exception exactly
when every element's `data-on` content parses under the wire contract;
an element with malformed content makes the `JSON.parse` exception
propagate out of `bindEvents` (aborting the render cycle), with no
diagnostic and no safe fallback — the warned, non-fatal skip applies
only to well-formed attributes naming missing handlers. -/
theorem bindEvents_ok_iff_wellformed (handlers : List (String × Nat))
    (ns : List LNode) : (bindList handlers [] 0 ns).ok = wfList ns :=
  bindList_ok_eq_wf handlers [] 0 ns

/-! ## Claim C5: handler-key namespacing -/

/-- A string free of the `:` separator used by `scopeKey`. -/
def noColon (s : String) : Bool := s.data.all (fun c => c ≠ ':')

theorem colon_free_append_inj (a : List Char) :
    ∀ (b x y : List Char), (∀ c ∈ a, c ≠ ':') → (∀ c ∈ b, c ≠ ':') →
      a ++ ':' :: x = b ++ ':' :: y → a = b := by
  induction a with
  | nil =>
    intro b x y _ hb h
    cases b with
    | nil => rfl
    | cons d ds =>
      simp only [List.nil_append, List.cons_append, List.cons.injEq] at h
      exact absurd h.1.symm (hb d (List.mem_cons_self d ds))
  | cons c cs ih =>
    intro b x y ha hb h
    cases b with
    | nil =>
      simp only [List.nil_append, List.cons_append, List.cons.injEq] at h
      exact absurd h.1 (ha c (List.mem_cons_self c cs))
    | cons d ds =>
      simp only [List.cons_append, List.cons.injEq] at h
      rw [h.1, ih ds x y (fun e he => ha e (List.mem_cons_of_mem c he))
        (fun e he => hb e (List.mem_cons_of_mem d he)) h.2]

/-- C5 counterexample: scope names may contain the separator, and then
the namespacing is not injective — scope `a` registering handler `b:c`
and the different scope `a:b` registering handler `c` write the same
registry key, the second registration silently replacing the first
scope's handler under that key. -/
theorem scopeKey_collision :
    scopeKey "a" "b:c" = scopeKey "a:b" "c" ∧
    ("a" : String) ≠ "a:b" ∧
    (scopeOn "a:b" "c" 2 (scopeOn "a" "b:c" 1 initialApp)).handlers =
      [(scopeKey "a" "b:c", 2)] :=
  ⟨rfl, by decide, rfl⟩

/-- C5 (amended). For scope names free of the `:` separator — every
scope the repository creates — the `scopeName:handlerName` namespacing
is injective across scopes, so a scoped `on()` registration never
touches any registry key of a different scope: no two scopes' handlers
can ever share a key. Scope names containing `:` void the guarantee
(see the counterexample). -/
theorem scopeOn_no_cross_scope (st : AppState) (s1 h1 : String) (cb : Nat)
    (s2 h2 : String) (hc1 : noColon s1 = true) (hc2 : noColon s2 = true)
    (hne : s1 ≠ s2) :
    getA (scopeOn s1 h1 cb st).handlers (scopeKey s2 h2) =
      getA st.handlers (scopeKey s2 h2) := by
  show getA (setA st.handlers (scopeKey s1 h1) cb) (scopeKey s2 h2) =
    getA st.handlers (scopeKey s2 h2)
  rw [getA_setA]
  have hkey : scopeKey s2 h2 ≠ scopeKey s1 h1 := by
    intro he
    apply hne
    have hdata : s2.data ++ ':' :: h2.data = s1.data ++ ':' :: h1.data := by
      have h' := congrArg String.data he
      simpa [scopeKey, String.data_append] using h'
    have hfree1 : ∀ c ∈ s1.data, c ≠ ':' := by
      simpa [noColon, List.all_eq_true] using hc1
    have hfree2 : ∀ c ∈ s2.data, c ≠ ':' := by
      simpa [noColon, List.all_eq_true] using hc2
    have hd := colon_free_append_inj s2.data s1.data h2.data h1.data hfree2 hfree1 hdata
    exact congrArg String.mk hd.symm
  rw [if_neg hkey]

/-- Witness for the amended C5 at two concrete colon-free scopes. -/
theorem scopeOn_no_cross_scope_witness :
    noColon "timer" = true ∧ noColon "todo" = true ∧
    ("timer" : String) ≠ "todo" ∧
    getA (scopeOn "timer" "start" 1 initialApp).handlers
        (scopeKey "todo" "add") =
      getA initialApp.handlers (scopeKey "todo" "add") :=
  ⟨by decide, by decide, by decide,
    scopeOn_no_cross_scope initialApp "timer" "start" 1 "todo" "add"
      (by decide) (by decide) (by decide)⟩

/-! ## Claim C7: idempotent scope creation -/

/-- C7. Calling `createScope` on a name already in the registry leaves
the whole application state untouched apart from the non-fatal warning
printed to the console — in particular the registry (and so the scope's
private state) is not reset — and the returned reference is the
registered scope itself, so reads and writes through either reference
go to the same registry entry until the scope is explicitly
destroyed. -/
theorem createScope_idempotent (s : AppState) (name : String)
    (sc : List (String × Value)) (h : getA s.scopes name = some sc) :
    createScope name s =
      { s with console := s.console ++ [scopeExistsWarn name] } ∧
    (getScope name (createScope name s)).1 = some sc := by
  have h1 : createScope name s =
      { s with console := s.console ++ [scopeExistsWarn name] } := by
    unfold createScope
    rw [h]
  refine ⟨h1, ?_⟩
  rw [h1]
  unfold getScope
  show (match getA s.scopes name with
    | none => (none, _)
    | some sc => (some sc, _)).1 = some sc
  rw [h]

/-- State for the C7 witness: the scope `x` has been created once. -/
def c7App : AppState := createScope "x" initialApp

/-- Witness for C7 at the concrete registry. -/
theorem createScope_idempotent_witness :
    getA c7App.scopes "x" = some [] ∧
    (createScope "x" c7App =
        { c7App with console := c7App.console ++ [scopeExistsWarn "x"] } ∧
      (getScope "x" (createScope "x" c7App)).1 = some []) :=
  ⟨rfl, createScope_idempotent c7App "x" [] rfl⟩

/-! ## Destroy lemmas and claims C9, C10 -/

theorem mem_eraseA {α : Type} {l : List (String × α)} {k : String}
    {p : String × α} (h : p ∈ eraseA l k) : p ∈ l ∧ p.1 ≠ k := by
  induction l with
  | nil => cases h
  | cons q qs ih =>
    by_cases hq : q.1 = k
    · rw [eraseA, if_pos hq] at h
      have h2 := ih h
      exact ⟨List.mem_cons_of_mem q h2.1, h2.2⟩
    · rw [eraseA, if_neg hq] at h
      rcases List.mem_cons.mp h with h1 | h1
      · subst h1; exact ⟨List.mem_cons_self p qs, hq⟩
      · have h2 := ih h1
        exact ⟨List.mem_cons_of_mem q h2.1, h2.2⟩

theorem foldl_eraseA_nil {α : Type} (names : List String) :
    ∀ l : List (String × α), (∀ p ∈ l, p.1 ∈ names) →
      names.foldl (fun acc k => eraseA acc k) l = [] := by
  induction names with
  | nil =>
    intro l h
    cases l with
    | nil => rfl
    | cons p ps => exact absurd (h p (List.mem_cons_self p ps)) (by simp)
  | cons n ns ih =>
    intro l h
    rw [List.foldl_cons]
    apply ih
    intro p hp
    have h2 := mem_eraseA hp
    rcases List.mem_cons.mp (h p h2.1) with h4 | h4
    · exact absurd h4 h2.2
    · exact h4

theorem foldl_scopeDestroy_eq (names : List String) (s : AppState) :
    names.foldl (fun acc n => scopeDestroy n acc) s =
      { s with
        handlers := names.foldl
          (fun h n => h.filter (fun p => !(strStarts p.1 (n ++ ":")))) s.handlers,
        scopes := names.foldl (fun sc n => eraseA sc n) s.scopes } := by
  induction names generalizing s with
  | nil => rfl
  | cons n ns ih =>
    simp only [List.foldl_cons]
    rw [ih]
    rfl

theorem filter_not_mem_eq_nil {l tracked : List Nat}
    (h : ∀ id ∈ l, id ∈ tracked) :
    l.filter (fun id => decide (id ∉ tracked)) = [] := by
  induction l with
  | nil => rfl
  | cons a as ih =>
    rw [List.filter_cons]
    have ha : decide (a ∉ tracked) = false := by
      simp [h a (List.mem_cons_self a as)]
    rw [ha]
    simpa using ih fun id hid => h id (List.mem_cons_of_mem a hid)

theorem filter_not_mem_nil_eq_self (l : List Nat) :
    l.filter (fun id => decide (id ∉ ([] : List Nat))) = l := by
  induction l with
  | nil => rfl
  | cons a as ih =>
    rw [List.filter_cons]
    simp [ih]

/-- Closed form of `destroy`: the step sequence of act.js lines 550-582
collapsed into one record update (the scope-destruction and
handler-deletion loops are evaluated by `foldl_scopeDestroy_eq` and
`foldl_eraseA_nil`). -/
theorem destroy_eq (s : AppState) :
    destroy s =
      { s with
        globalState := [],
        scopes := [],
        renderFn := none,
        mounted := false,
        activeListeners := [],
        intervals := [],
        timeouts := [],
        hostIntervals := s.hostIntervals.filter (fun id => decide (id ∉ s.intervals)),
        hostTimeouts := s.hostTimeouts.filter (fun id => decide (id ∉ s.timeouts)),
        handlers := [],
        container := [],
        console := s.console ++ [destroyLog] } := by
  have hsc : ((s.scopes.map Prod.fst).foldl (fun sc n => eraseA sc n) s.scopes) = [] :=
    foldl_eraseA_nil _ _ (fun p hp => List.mem_map.mpr ⟨p, hp, rfl⟩)
  simp only [destroy, destroyScopes, cleanupListeners]
  rw [foldl_scopeDestroy_eq]
  dsimp only
  rw [hsc]
  rw [foldl_eraseA_nil _ _ (fun p hp => List.mem_map.mpr ⟨p, hp, rfl⟩)]

/-- C9. Postconditions of `destroy()` for any state whose host timers
were all created through the safe-timer helpers (so every host timer id
is tracked, which is what the wrapper contract of act.js lines 350-389
maintains): the container has no content, every scope name yields the
not-found signal from `getScope`, no host interval or timeout remains
registered (tracked interval callbacks can no longer fire), and global
state, handler registry, scope registry, tracked timer sets and
listener records are all empty. -/
theorem destroy_cleanup (s : AppState)
    (hi : ∀ id ∈ s.hostIntervals, id ∈ s.intervals)
    (ht : ∀ id ∈ s.hostTimeouts, id ∈ s.timeouts) :
    (destroy s).container = [] ∧
    (destroy s).globalState = [] ∧
    (destroy s).handlers = [] ∧
    (destroy s).scopes = [] ∧
    (∀ name, (getScope name (destroy s)).1 = none) ∧
    (destroy s).intervals = [] ∧
    (destroy s).timeouts = [] ∧
    (destroy s).hostIntervals = [] ∧
    (destroy s).hostTimeouts = [] ∧
    (destroy s).activeListeners = [] ∧
    (destroy s).mounted = false := by
  rw [destroy_eq]
  refine ⟨rfl, rfl, rfl, rfl, fun name => rfl, rfl, rfl, ?_, ?_, rfl, rfl⟩
  · exact filter_not_mem_eq_nil hi
  · exact filter_not_mem_eq_nil ht

/-- State for the C9 witness: a scope was created, the app mounted, and
one interval and one timeout were registered through the safe-timer
helpers. -/
def c9App : AppState :=
  (safeSetTimeout (safeSetInterval
    (mount (fun _ => []) (createScope "timer" initialApp))).2).2

/-- Witness for C9 at the concrete state. -/
theorem destroy_cleanup_witness :
    (∀ id ∈ c9App.hostIntervals, id ∈ c9App.intervals) ∧
    (∀ id ∈ c9App.hostTimeouts, id ∈ c9App.timeouts) ∧
    ((destroy c9App).container = [] ∧
     (destroy c9App).globalState = [] ∧
     (destroy c9App).handlers = [] ∧
     (destroy c9App).scopes = [] ∧
     (∀ name, (getScope name (destroy c9App)).1 = none) ∧
     (destroy c9App).intervals = [] ∧
     (destroy c9App).timeouts = [] ∧
     (destroy c9App).hostIntervals = [] ∧
     (destroy c9App).hostTimeouts = [] ∧
     (destroy c9App).activeListeners = [] ∧
     (destroy c9App).mounted = false) :=
  ⟨by decide, by decide, destroy_cleanup c9App (by decide) (by decide)⟩

/-- Every observable component of the application state that claim C10
enumerates (the console log, which records the destruction notice each
time, is deliberately not an application-state component). -/
def observables (s : AppState) :
    List (String × Value) × List (String × List (String × Value)) ×
    Option (List (String × Value) → List DNode) × Bool ×
    List ListenerRecord × List Nat × List Nat × List Nat × List Nat ×
    Nat × Bool × Nat × List (String × Nat) × List LNode × Nat :=
  (s.globalState, s.scopes, s.renderFn, s.mounted, s.activeListeners,
   s.intervals, s.timeouts, s.hostIntervals, s.hostTimeouts,
   s.nextTimerId, s.rerenderScheduled, s.pendingMicrotasks,
   s.handlers, s.container, s.renderCount)

/-- C10. `destroy()` is idempotent: a second `destroy()` on an
already-destroyed state runs to completion without error (the model is
a total function: empty loops, an `innerHTML = ""` on an empty
container, a re-reset of the already-reset registries) and leaves every
observable component of the application state exactly as the first
`destroy()` left it. -/
theorem destroy_idempotent (s : AppState) :
    observables (destroy (destroy s)) = observables (destroy s) := by
  rw [destroy_eq (destroy s), destroy_eq s]
  unfold observables
  dsimp only
  rw [filter_not_mem_nil_eq_self, filter_not_mem_nil_eq_self]

/-! ## Claim C3: debounced scheduling -/

theorem applyOp_fields (s : AppState) (op : Op) (hm : s.mounted = true) :
    (applyOp s op).mounted = true ∧
    (applyOp s op).renderFn = s.renderFn ∧
    (applyOp s op).renderCount = s.renderCount ∧
    (applyOp s op).rerenderScheduled = true ∧
    (applyOp s op).pendingMicrotasks =
      (if s.rerenderScheduled then s.pendingMicrotasks
       else s.pendingMicrotasks + 1) := by
  cases op with
  | globalSet k v =>
    simp only [applyOp, setState, scheduleRerender]
    by_cases h : s.rerenderScheduled <;> simp [hm, h]
  | scopedSet name k v =>
    simp only [applyOp, scopeSetState, scheduleRerender]
    by_cases h : s.rerenderScheduled <;> simp [hm, h]

theorem applyOps_steady (ops : List Op) (s : AppState) (hm : s.mounted = true)
    (hs : s.rerenderScheduled = true) :
    (applyOps ops s).mounted = true ∧
    (applyOps ops s).rerenderScheduled = true ∧
    (applyOps ops s).pendingMicrotasks = s.pendingMicrotasks ∧
    (applyOps ops s).renderCount = s.renderCount ∧
    (applyOps ops s).renderFn = s.renderFn := by
  induction ops generalizing s with
  | nil => exact ⟨hm, hs, rfl, rfl, rfl⟩
  | cons op ops ih =>
    obtain ⟨hm1, hrf1, hrc1, hs1, hp1⟩ := applyOp_fields s op hm
    rw [hs, if_pos rfl] at hp1
    obtain ⟨a, b, c, d, e⟩ := ih (applyOp s op) hm1 hs1
    refine ⟨a, b, ?_, ?_, ?_⟩
    · rw [show applyOps (op :: ops) s = applyOps ops (applyOp s op) from rfl, c, hp1]
    · rw [show applyOps (op :: ops) s = applyOps ops (applyOp s op) from rfl, d, hrc1]
    · rw [show applyOps (op :: ops) s = applyOps ops (applyOp s op) from rfl, e, hrf1]

/-- C3. Debounced scheduling: from a mounted application with nothing
scheduled, any non-empty synchronous block of `setState` calls (global
or scoped, any keys and values) queues exactly one rerender microtask
and performs no render during the block; the next microtask-equivalent
checkpoint then executes exactly one render cycle (the render-count
probe increases by exactly one) and leaves nothing scheduled. -/
theorem debounced_single_render (s0 : AppState) (ops : List Op)
    (f : List (String × Value) → List DNode)
    (hm : s0.mounted = true) (hrf : s0.renderFn = some f)
    (hs : s0.rerenderScheduled = false) (hp : s0.pendingMicrotasks = 0)
    (hne : ops ≠ []) :
    (applyOps ops s0).renderCount = s0.renderCount ∧
    (applyOps ops s0).pendingMicrotasks = 1 ∧
    (checkpoint (applyOps ops s0)).renderCount = s0.renderCount + 1 ∧
    (checkpoint (applyOps ops s0)).pendingMicrotasks = 0 ∧
    (checkpoint (applyOps ops s0)).rerenderScheduled = false := by
  obtain ⟨op, ops', rfl⟩ := List.exists_cons_of_ne_nil hne
  obtain ⟨hm1, hrf1, hrc1, hs1, hp1⟩ := applyOp_fields s0 op hm
  rw [hs, if_neg (by simp), hp] at hp1
  obtain ⟨a, b, c, d, e⟩ := applyOps_steady ops' (applyOp s0 op) hm1 hs1
  have heq : applyOps (op :: ops') s0 = applyOps ops' (applyOp s0 op) := rfl
  have hcount : (applyOps (op :: ops') s0).renderCount = s0.renderCount := by
    rw [heq, d, hrc1]
  have hpend : (applyOps (op :: ops') s0).pendingMicrotasks = 1 := by
    rw [heq, c, hp1]
  have hfn : (applyOps (op :: ops') s0).renderFn = some f := by
    rw [heq, e, hrf1, hrf]
  have hck : checkpoint (applyOps (op :: ops') s0) =
      runMicrotask (applyOps (op :: ops') s0) := by
    unfold checkpoint
    rw [hpend]
    rfl
  have hrun := rerender_eq
    { applyOps (op :: ops') s0 with
      pendingMicrotasks := (applyOps (op :: ops') s0).pendingMicrotasks - 1,
      rerenderScheduled := false } f hfn
  refine ⟨hcount, hpend, ?_, ?_, ?_⟩
  · rw [hck]
    unfold runMicrotask
    rw [hrun]
    dsimp only
    rw [hcount]
  · rw [hck]
    unfold runMicrotask
    rw [hrun]
    dsimp only
    rw [hpend]
  · rw [hck]
    unfold runMicrotask
    rw [hrun]

/-- Mounted, idle state for the C3 witness. -/
def c3App : AppState :=
  { initialApp with mounted := true, renderFn := some (fun _ => c2Frag) }

/-- A synchronous block of three `setState` calls for the C3 witness:
two global writes and one scoped write. -/
def c3Ops : List Op :=
  [.globalSet "count" (.vNum 1), .scopedSet "timer" "seconds" (.vNum 0),
   .globalSet "count" (.vNum 2)]

/-- Witness for C3 at the concrete state and block. -/
theorem debounced_single_render_witness :
    c3App.mounted = true ∧ c3App.rerenderScheduled = false ∧
    c3App.pendingMicrotasks = 0 ∧ c3Ops ≠ [] ∧
    ((applyOps c3Ops c3App).renderCount = c3App.renderCount ∧
     (applyOps c3Ops c3App).pendingMicrotasks = 1 ∧
     (checkpoint (applyOps c3Ops c3App)).renderCount = c3App.renderCount + 1 ∧
     (checkpoint (applyOps c3Ops c3App)).pendingMicrotasks = 0 ∧
     (checkpoint (applyOps c3Ops c3App)).rerenderScheduled = false) :=
  ⟨rfl, rfl, rfl, by simp [c3Ops],
    debounced_single_render c3App c3Ops (fun _ => c2Frag) rfl rfl rfl rfl
      (by simp [c3Ops])⟩

end ActJs
